import Mathlib

set_option maxHeartbeats 1000000
set_option maxRecDepth 4000

/-!
Verification development for the kv networked key-value service
(src/training/kv): message model (pb.rs), dispatch loop (server.rs),
demo client (client.rs), length-prefixed framing, and the per-connection
handler loop.
-/

namespace Kv

/-- Command carried by a request: the three-variant oneof of the kv schema
(Get, Put, Del), as consumed by the dispatch match in
src/training/kv/src/server.rs. Keys are UTF-8 strings, values byte strings
(bytes modelled as lists of naturals). -/
inductive Command where
  | get (key : String)
  | put (key : String) (value : List Nat)
  | del (key : String)
deriving DecidableEq

/-- Request message: wraps zero or one Command (src/training/kv/src/pb.rs). -/
structure Request where
  command : Option Command
deriving DecidableEq

/-- Response message with code, key and value fields
(src/training/kv/src/pb.rs). The code field is an i32 in the source,
modelled as Int. -/
structure Response where
  code : Int
  key : String
  value : List Nat
deriving DecidableEq

/-- Success response, pb.rs Response::new. -/
def Response.new (key : String) (value : List Nat) : Response :=
  { code := 0, key := key, value := value }

/-- Missing-key response, pb.rs Response::not_found: code 404, empty value. -/
def Response.not_found (key : String) : Response :=
  { code := 404, key := key, value := [] }

/-- Unset-command response, pb.rs Response::not_impl: code 500, defaulted
key and value. -/
def Response.not_impl : Response :=
  { code := 500, key := "", value := [] }

/-- pb.rs Request::new_get. -/
def Request.new_get (key : String) : Request :=
  ⟨some (Command.get key)⟩

/-- pb.rs Request::new_del. -/
def Request.new_del (key : String) : Request :=
  ⟨some (Command.del key)⟩

/-- pb.rs Request::new_put. -/
def Request.new_put (key : String) (value : List Nat) : Request :=
  ⟨some (Command.put key value)⟩

/-- Modelled from the spec: the Store (server.rs ServerState.store, a
DashMap from String keys to byte values, an external dependency) is a
mapping from string keys to byte-string values, keys unique (spec 4.3). -/
def Store : Type :=
  String → Option (List Nat)

/-- Store lookup (DashMap::get). -/
def Store.get (s : Store) (key : String) : Option (List Nat) :=
  s key

/-- Store insert-or-overwrite (DashMap::insert), previous value discarded. -/
def Store.insert (s : Store) (key : String) (value : List Nat) : Store :=
  fun k => if k = key then some value else s k

/-- Store removal (DashMap::remove): returns the removed entry (stored key
and prior value) when present, together with the store after removal. -/
def Store.remove (s : Store) (key : String) : Option (String × List Nat) × Store :=
  match s key with
  | some v => (some (key, v), fun k => if k = key then none else s k)
  | none => (none, s)

/-- Store of the freshly started server, ServerState::new(): empty. -/
def emptyStore : Store :=
  fun _ => none

/-- Dispatch of one decoded request against the store: the match on
msg.command in server.rs main (lines 57-71). Returns the response together
with the store after the operation. -/
def dispatch (shared : Store) (msg : Request) : Response × Store :=
  match msg.command with
  | some (Command.get key) =>
    match shared.get key with
    | some v => (Response.new key v, shared)
    | none => (Response.not_found key, shared)
  | some (Command.put key value) =>
    (Response.new key value, shared.insert key value)
  | some (Command.del key) =>
    match shared.remove key with
    | (some (k, v), s) => (Response.new k v, s)
    | (none, s) => (Response.not_found key, s)
  | none => (Response.not_impl, shared)

/-- Sequential dispatch of a list of requests (the server connection loop
restricted to its success path): the responses in request order and the
final store. -/
def runReqs (s : Store) : List Request → List Response × Store
  | [] => ([], s)
  | msg :: rest =>
    ((dispatch s msg).1 :: (runReqs (dispatch s msg).2 rest).1,
     (runReqs (dispatch s msg).2 rest).2)

/-- The fixed request sequence the demo client issues, in order
(src/training/kv/src/client.rs main): Put("hello", b"world"),
Get("hello"), Get("world"), Del("hello"). -/
def clientRequests : List Request :=
  [Request.new_put "hello" [119, 111, 114, 108, 100],
   Request.new_get "hello",
   Request.new_get "world",
   Request.new_del "hello"]

/-- Stated from the spec scenario (spec section 8), for comparison with
clientRequests: Put("hello","world"), Get("hello"), Get("world"),
Del("hello"), Get("hello"). -/
def specScenarioRequests : List Request :=
  [Request.new_put "hello" [119, 111, 114, 108, 100],
   Request.new_get "hello",
   Request.new_get "world",
   Request.new_del "hello",
   Request.new_get "hello"]

/-- Modelled from the spec: frame encoding of the external
LengthDelimitedCodec configured with length_field_length(2) in server.rs
and client.rs: a 2-byte big-endian length prefix followed by the payload;
payloads whose length exceeds the representable range of the 2-byte field
are rejected at encode time (spec sections 3 and 4.1). -/
def frameEncode (p : List Nat) : Option (List Nat) :=
  if p.length ≤ 65535 then some (p.length / 256 :: p.length % 256 :: p) else none

/-- Modelled from the spec: frame decoding reads the 2-byte big-endian
length prefix, then exactly that many payload bytes, returning the payload
and the remaining stream; fails when fewer bytes are available. -/
def frameDecode (buf : List Nat) : Option (List Nat × List Nat) :=
  match buf with
  | b1 :: b0 :: rest =>
    if b1 * 256 + b0 ≤ rest.length then
      some (rest.take (b1 * 256 + b0), rest.drop (b1 * 256 + b0))
    else none
  | _ => none

/-- Modelled from the spec: the binary message encoding of pb.rs delegates
to prost-generated code (mod abi, absent from src); spec section 4.2
describes it as Protocol-Buffers style: fields tagged with a field number
and wire type, variable-length integers, length-delimited bytes, nested
messages, defaults absent from the wire, unknown fields skippable. Bytes
are modelled as naturals below 256; varint encoding is base-128
little-endian with a continuation bit. -/
def encVarint (n : Nat) : List Nat :=
  if h : n < 128 then [n] else (n % 128 + 128) :: encVarint (n / 128)
termination_by n
decreasing_by exact Nat.div_lt_self (by omega) (by omega)

/-- Varint decoding: reads continuation-marked bytes, returning the value
and the remaining buffer. -/
def decVarint : List Nat → Option (Nat × List Nat)
  | [] => none
  | b :: rest =>
    if b < 128 then some (b, rest)
    else
      match decVarint rest with
      | some (n, r) => some (b - 128 + 128 * n, r)
      | none => none

/-- Modelled from the spec: an int32 field value is carried on the wire as
the varint of its 64-bit two's-complement representation. -/
def encInt32 (i : Int) : List Nat :=
  encVarint (i % (2 ^ 64 : Int)).toNat

/-- Reading an int32 from a decoded varint: truncate to 32 bits and
interpret as a signed value. -/
def decInt32 (n : Nat) : Int :=
  if n % 2 ^ 32 < 2 ^ 31 then ((n % 2 ^ 32 : Nat) : Int)
  else ((n % 2 ^ 32 : Nat) : Int) - 2 ^ 32

/-- Wire encoding of a varint-typed field: tag (field number, wire type 0)
then the value. -/
def encIntField (fieldNum : Nat) (i : Int) : List Nat :=
  encVarint (fieldNum * 8) ++ encInt32 i

/-- Wire encoding of a length-delimited field: tag (field number, wire
type 2), payload length, payload. -/
def encLenField (fieldNum : Nat) (payload : List Nat) : List Nat :=
  encVarint (fieldNum * 8 + 2) ++ encVarint payload.length ++ payload

/-- In-memory Response for the wire model, with key and value as byte
strings (pb.rs Response via prost: code int32 field 1, key string field 2,
value bytes field 3). -/
structure PbResponse where
  code : Int
  key : List Nat
  value : List Nat
deriving DecidableEq

/-- In-memory Command for the wire model: the oneof of the kv schema with
sub-messages RequestGet (key field 1), RequestPut (key field 1, value
field 2), RequestDel (key field 1). -/
inductive PbCommand where
  | get (key : List Nat)
  | put (key : List Nat) (value : List Nat)
  | del (key : List Nat)
deriving DecidableEq

/-- In-memory Request for the wire model: zero or one command; the oneof
variants get, put, del occupy fields 1, 2, 3 of the Request message. -/
structure PbRequest where
  command : Option PbCommand
deriving DecidableEq

/-- Modelled from the spec: Response encoding emits each field in field
order, omitting fields holding their default (zero, empty). -/
def encodeResponse (m : PbResponse) : List Nat :=
  (if m.code = 0 then [] else encIntField 1 m.code) ++
  (if m.key = [] then [] else encLenField 2 m.key) ++
  (if m.value = [] then [] else encLenField 3 m.value)

/-- RequestGet sub-message encoding: key at field 1, omitted when empty. -/
def encodeRequestGet (key : List Nat) : List Nat :=
  if key = [] then [] else encLenField 1 key

/-- RequestPut sub-message encoding: key field 1, value field 2, defaults
omitted. -/
def encodeRequestPut (key value : List Nat) : List Nat :=
  (if key = [] then [] else encLenField 1 key) ++
  (if value = [] then [] else encLenField 2 value)

/-- RequestDel sub-message encoding: key at field 1, omitted when empty. -/
def encodeRequestDel (key : List Nat) : List Nat :=
  if key = [] then [] else encLenField 1 key

/-- Modelled from the spec: Request encoding emits the set oneof variant
as a length-delimited nested message (always present when set), nothing
when no command is set. -/
def encodeRequest (m : PbRequest) : List Nat :=
  match m.command with
  | none => []
  | some (PbCommand.get key) => encLenField 1 (encodeRequestGet key)
  | some (PbCommand.put key value) => encLenField 2 (encodeRequestPut key value)
  | some (PbCommand.del key) => encLenField 3 (encodeRequestDel key)

/-- Field-by-field Response parser: reads a tag, dispatches on wire type
and field number, assigns known fields, skips unknown varint and
length-delimited fields, and fails on malformed input. Fuel bounds the
number of fields; one unit is spent per field, and a field occupies at
least one byte, so buffer length is always sufficient fuel. -/
def parseResponseLoop : Nat → List Nat → PbResponse → Option PbResponse
  | _, [], m => some m
  | 0, _ :: _, _ => none
  | fuel + 1, buf, m =>
    match decVarint buf with
    | none => none
    | some (tag, rest) =>
      if tag % 8 = 0 then
        match decVarint rest with
        | none => none
        | some (v, rest2) =>
          parseResponseLoop fuel rest2
            (if tag / 8 = 1 then { m with code := decInt32 v } else m)
      else if tag % 8 = 2 then
        match decVarint rest with
        | none => none
        | some (len, rest2) =>
          if len ≤ rest2.length then
            parseResponseLoop fuel (rest2.drop len)
              (if tag / 8 = 2 then { m with key := rest2.take len }
               else if tag / 8 = 3 then { m with value := rest2.take len }
               else m)
          else none
      else none

/-- Response decoding: parse all fields starting from the all-default
message. -/
def decodeResponse (buf : List Nat) : Option PbResponse :=
  parseResponseLoop buf.length buf { code := 0, key := [], value := [] }

/-- RequestGet sub-message parser (key at field 1). -/
def parseGetLoop : Nat → List Nat → List Nat → Option (List Nat)
  | _, [], key => some key
  | 0, _ :: _, _ => none
  | fuel + 1, buf, key =>
    match decVarint buf with
    | none => none
    | some (tag, rest) =>
      if tag % 8 = 2 then
        match decVarint rest with
        | none => none
        | some (len, rest2) =>
          if len ≤ rest2.length then
            parseGetLoop fuel (rest2.drop len)
              (if tag / 8 = 1 then rest2.take len else key)
          else none
      else if tag % 8 = 0 then
        match decVarint rest with
        | none => none
        | some (_, rest2) => parseGetLoop fuel rest2 key
      else none

/-- RequestPut sub-message parser (key field 1, value field 2). -/
def parsePutLoop : Nat → List Nat → List Nat → List Nat → Option (List Nat × List Nat)
  | _, [], key, value => some (key, value)
  | 0, _ :: _, _, _ => none
  | fuel + 1, buf, key, value =>
    match decVarint buf with
    | none => none
    | some (tag, rest) =>
      if tag % 8 = 2 then
        match decVarint rest with
        | none => none
        | some (len, rest2) =>
          if len ≤ rest2.length then
            if tag / 8 = 1 then parsePutLoop fuel (rest2.drop len) (rest2.take len) value
            else if tag / 8 = 2 then parsePutLoop fuel (rest2.drop len) key (rest2.take len)
            else parsePutLoop fuel (rest2.drop len) key value
          else none
      else if tag % 8 = 0 then
        match decVarint rest with
        | none => none
        | some (_, rest2) => parsePutLoop fuel rest2 key value
      else none

/-- RequestDel sub-message parser (key at field 1). -/
def parseDelLoop : Nat → List Nat → List Nat → Option (List Nat)
  | _, [], key => some key
  | 0, _ :: _, _ => none
  | fuel + 1, buf, key =>
    match decVarint buf with
    | none => none
    | some (tag, rest) =>
      if tag % 8 = 2 then
        match decVarint rest with
        | none => none
        | some (len, rest2) =>
          if len ≤ rest2.length then
            parseDelLoop fuel (rest2.drop len)
              (if tag / 8 = 1 then rest2.take len else key)
          else none
      else if tag % 8 = 0 then
        match decVarint rest with
        | none => none
        | some (_, rest2) => parseDelLoop fuel rest2 key
      else none

/-- Request parser: each oneof variant arrives as a length-delimited
nested message at its field; the variant seen last wins; unknown fields
are skipped. -/
def parseRequestLoop : Nat → List Nat → Option PbCommand → Option PbRequest
  | _, [], cmd => some ⟨cmd⟩
  | 0, _ :: _, _ => none
  | fuel + 1, buf, cmd =>
    match decVarint buf with
    | none => none
    | some (tag, rest) =>
      if tag % 8 = 2 then
        match decVarint rest with
        | none => none
        | some (len, rest2) =>
          if len ≤ rest2.length then
            if tag / 8 = 1 then
              match parseGetLoop (rest2.take len).length (rest2.take len) [] with
              | some k => parseRequestLoop fuel (rest2.drop len) (some (PbCommand.get k))
              | none => none
            else if tag / 8 = 2 then
              match parsePutLoop (rest2.take len).length (rest2.take len) [] [] with
              | some (k, v) => parseRequestLoop fuel (rest2.drop len) (some (PbCommand.put k v))
              | none => none
            else if tag / 8 = 3 then
              match parseDelLoop (rest2.take len).length (rest2.take len) [] with
              | some k => parseRequestLoop fuel (rest2.drop len) (some (PbCommand.del k))
              | none => none
            else parseRequestLoop fuel (rest2.drop len) cmd
          else none
      else if tag % 8 = 0 then
        match decVarint rest with
        | none => none
        | some (_, rest2) => parseRequestLoop fuel rest2 cmd
      else none

/-- Request decoding: parse all fields starting from no command set. -/
def decodeRequest (buf : List Nat) : Option PbRequest :=
  parseRequestLoop buf.length buf none

/-- One read event on a connection, as seen by the server loop in
server.rs main (lines 54-73): a frame that arrived and decoded to a
Request (the while-let Some(Ok(buf)) followed by a successful
buf.try_into()), a frame whose message decode failed (try_into returning
Err, propagated by the question-mark operator), or a framing/IO error from
the stream (stream.next() yielding Some(Err), which ends the while-let). -/
inductive ConnEvent where
  | good (msg : Request)
  | badDecode
  | frameError
deriving DecidableEq

/-- Observable action of the connection handler: reading one frame event,
writing one response (stream.send), or closing the connection (the handler
task ending). -/
inductive Action where
  | readFrame (e : ConnEvent)
  | writeResp (r : Response)
  | close
deriving DecidableEq

/-- Big-step run of the per-connection handler loop of server.rs main over
a list of read events: the while-let reads a frame, decodes it, dispatches
the request against the shared store, sends the response, and repeats; the
loop ends (and the task closes the connection) at end of stream, on a
stream error, or on a message-decode error. Returns the trace of actions
in the order they happen and the final store. -/
def connRun (s : Store) : List ConnEvent → List Action × Store
  | [] => ([Action.close], s)
  | ConnEvent.frameError :: _ => ([Action.readFrame ConnEvent.frameError, Action.close], s)
  | ConnEvent.badDecode :: _ => ([Action.readFrame ConnEvent.badDecode, Action.close], s)
  | ConnEvent.good msg :: rest =>
    (Action.readFrame (ConnEvent.good msg) ::
       Action.writeResp (dispatch s msg).1 ::
       (connRun (dispatch s msg).2 rest).1,
     (connRun (dispatch s msg).2 rest).2)

end Kv

namespace Kv

/-- CLAIM C1: for every key k and value v, after dispatching Put(k, v)
against the store, dispatching Get(k) yields the response
with code 0, key k and value v. -/
theorem put_then_get (s : Store) (k : String) (v : List Nat) :
    (dispatch (dispatch s (Request.new_put k v)).2 (Request.new_get k)).1 =
      { code := 0, key := k, value := v } := by
  simp [dispatch, Request.new_put, Request.new_get, Store.insert, Store.get,
    Response.new]

/-- CLAIM C2: for every key k not present in the store, dispatching Get(k)
yields the response with code 404, key k and empty value, and dispatching
Del(k) yields the same response. -/
theorem get_del_missing (s : Store) (k : String) (h : s k = none) :
    (dispatch s (Request.new_get k)).1 = { code := 404, key := k, value := [] } ∧
    (dispatch s (Request.new_del k)).1 = { code := 404, key := k, value := [] } := by
  constructor
  · simp [dispatch, Request.new_get, Store.get, h, Response.not_found]
  · simp [dispatch, Request.new_del, Store.remove, h, Response.not_found]

/-- Witness for C2 at the empty store and the key "a". -/
theorem get_del_missing_witness :
    emptyStore "a" = none ∧
    ((dispatch emptyStore (Request.new_get "a")).1 =
        { code := 404, key := "a", value := [] } ∧
      (dispatch emptyStore (Request.new_del "a")).1 =
        { code := 404, key := "a", value := [] }) :=
  ⟨rfl, get_del_missing emptyStore "a" rfl⟩

/-- CLAIM C3: dispatching a Request whose command is absent yields the
response with code 500, key and value defaulted to empty, and leaves the
store unchanged, for every store state. -/
theorem unset_command (s : Store) :
    dispatch s ⟨none⟩ = ({ code := 500, key := "", value := [] }, s) := by
  simp [dispatch, Response.not_impl]

/-- CLAIM C6: after Put(k, v) and then Del(k), a later Get(k) responds with
code 404; the Del dispatch itself yields code 0 with key k and the prior
value v. -/
theorem put_del_then_get (s : Store) (k : String) (v : List Nat) :
    (dispatch (dispatch s (Request.new_put k v)).2 (Request.new_del k)).1 =
      { code := 0, key := k, value := v } ∧
    (dispatch
        (dispatch (dispatch s (Request.new_put k v)).2 (Request.new_del k)).2
        (Request.new_get k)).1.code = 404 := by
  constructor
  · simp [dispatch, Request.new_put, Request.new_del, Store.insert,
      Store.remove, Response.new]
  · simp [dispatch, Request.new_put, Request.new_del, Request.new_get,
      Store.insert, Store.remove, Store.get, Response.new, Response.not_found]

/-- CLAIM C10: dispatching Get(k) leaves the store unchanged for every
store state and key (hit or miss); the unset-command path also leaves the
store unchanged, so among the dispatch paths only Put and Del modify it. -/
theorem get_preserves_store (s : Store) (k : String) :
    (dispatch s (Request.new_get k)).2 = s ∧ (dispatch s ⟨none⟩).2 = s := by
  constructor
  · cases h : s.get k <;> simp [dispatch, Request.new_get, h]
  · simp [dispatch]

/-- CLAIM C5: a payload whose length fits the 2-byte length field
frame-encodes successfully and frame-decodes back to exactly that payload;
a payload longer than 65535 bytes is rejected at encode time. -/
theorem frame_codec (p : List Nat) :
    (p.length ≤ 65535 → ∃ f, frameEncode p = some f ∧ frameDecode f = some (p, [])) ∧
    (65535 < p.length → frameEncode p = none) := by
  constructor
  · intro h
    refine ⟨p.length / 256 :: p.length % 256 :: p, by simp [frameEncode, h], ?_⟩
    have hlen : p.length / 256 * 256 + p.length % 256 = p.length := by omega
    simp [frameDecode, hlen]
  · intro h
    simp [frameEncode]
    omega

/-- Witness for C5: the payload [7, 8, 9] round-trips, and a 70000-byte
payload is rejected at encode time. -/
theorem frame_codec_witness :
    (∃ f, frameEncode [7, 8, 9] = some f ∧ frameDecode f = some ([7, 8, 9], [])) ∧
    frameEncode (List.replicate 70000 0) = none :=
  ⟨(frame_codec [7, 8, 9]).1 (by decide),
   (frame_codec (List.replicate 70000 0)).2 (by simp only [List.length_replicate]; omega)⟩

/-- Counterexample for CLAIM C7: the request sequence the demo client
issues (client.rs main) is not the five-request spec scenario sequence;
the client never sends the final Get("hello"). -/
theorem client_sequence_diverges : clientRequests ≠ specScenarioRequests := by
  decide

/-- CLAIM C7 (amended): dispatching the five-request scenario sequence
against an initially empty store yields, in order, the five scenario
responses; the demo client issues (and reads responses for, in request
order) exactly the first four of these requests, not the fifth. -/
theorem scenario_responses :
    (runReqs emptyStore specScenarioRequests).1 =
      [{ code := 0, key := "hello", value := [119, 111, 114, 108, 100] },
       { code := 0, key := "hello", value := [119, 111, 114, 108, 100] },
       { code := 404, key := "world", value := [] },
       { code := 0, key := "hello", value := [119, 111, 114, 108, 100] },
       { code := 404, key := "hello", value := [] }] ∧
    clientRequests = specScenarioRequests.take 4 := by
  constructor
  · rfl
  · rfl

end Kv

namespace Kv

theorem connRun_fst_ne_nil (s : Store) (evs : List ConnEvent) :
    (connRun s evs).1 ≠ [] := by
  cases evs with
  | nil => simp [connRun]
  | cons e rest => cases e <;> simp [connRun]

theorem dropLast_cons_of_ne_nil_kv {α : Type} (a : α) {l : List α} (h : l ≠ []) :
    (a :: l).dropLast = a :: l.dropLast := by
  cases l with
  | nil => exact absurd rfl h
  | cons b t => simp [List.dropLast]

/-- CLAIM C8: a message-decode error or a framing error is fatal to the
connection: after any run of successfully handled requests, the handler
reads the bad event, closes without writing any further response, never
reads the rest of the stream, and the store is exactly the store produced
by the successful prefix (the error leaves it unchanged). -/
theorem decode_error_fatal (s : Store) (msgs : List Request) (e : ConnEvent)
    (he : e = ConnEvent.badDecode ∨ e = ConnEvent.frameError) (rest : List ConnEvent) :
    connRun s (msgs.map ConnEvent.good ++ e :: rest) =
      ((connRun s (msgs.map ConnEvent.good)).1.dropLast ++
         [Action.readFrame e, Action.close],
       (connRun s (msgs.map ConnEvent.good)).2) := by
  induction msgs generalizing s with
  | nil => rcases he with h | h <;> subst h <;> simp [connRun]
  | cons m ms ih =>
    simp only [List.map_cons, List.cons_append, connRun, List.append_eq]
    rw [ih]
    rw [dropLast_cons_of_ne_nil_kv _ (List.cons_ne_nil _ _),
      dropLast_cons_of_ne_nil_kv _ (connRun_fst_ne_nil _ _)]
    simp

/-- Witness for C8: one good Put, then a decode error, then an unread Get. -/
theorem decode_error_fatal_witness :
    connRun emptyStore
        (List.map ConnEvent.good [Request.new_put "a" [1]] ++
          ConnEvent.badDecode :: [ConnEvent.good (Request.new_get "a")]) =
      ((connRun emptyStore (List.map ConnEvent.good [Request.new_put "a" [1]])).1.dropLast ++
         [Action.readFrame ConnEvent.badDecode, Action.close],
       (connRun emptyStore (List.map ConnEvent.good [Request.new_put "a" [1]])).2) :=
  decode_error_fatal emptyStore [Request.new_put "a" [1]] ConnEvent.badDecode
    (Or.inl rfl) [ConnEvent.good (Request.new_get "a")]

/-- CLAIM C9: on a stream of successfully decoded requests, the handler
trace strictly alternates read and write, one response per request in
request order: request N's response is written before request N+1 is read,
and the final store is that of sequential dispatch. -/
theorem conn_strict_alternation (s : Store) (msgs : List Request) :
    connRun s (msgs.map ConnEvent.good) =
      ((msgs.zip (runReqs s msgs).1).flatMap
          (fun p => [Action.readFrame (ConnEvent.good p.1), Action.writeResp p.2]) ++
        [Action.close],
       (runReqs s msgs).2) := by
  induction msgs generalizing s with
  | nil => simp [connRun, runReqs]
  | cons m ms ih => simp [connRun, runReqs, ih]

end Kv

namespace Kv

theorem encVarint_small (n : Nat) (h : n < 128) : encVarint n = [n] := by
  rw [encVarint.eq_def]
  simp [h]

theorem encVarint_large (n : Nat) (h : ¬ n < 128) :
    encVarint n = (n % 128 + 128) :: encVarint (n / 128) := by
  rw [encVarint.eq_def]
  simp [h]

theorem encVarint_length_pos (n : Nat) : 0 < (encVarint n).length := by
  rw [encVarint.eq_def]
  split <;> simp

theorem decVarint_encVarint (n : Nat) (rest : List Nat) :
    decVarint (encVarint n ++ rest) = some (n, rest) := by
  induction n using Nat.strong_induction_on with
  | _ n ih =>
    by_cases h : n < 128
    · rw [encVarint_small n h]
      simp [decVarint, h]
    · rw [encVarint_large n h]
      have h2 : ¬ n % 128 + 128 < 128 := by omega
      have h3 : n / 128 < n := Nat.div_lt_self (by omega) (by omega)
      simp only [List.cons_append, decVarint, if_neg h2, List.append_eq,
        ih (n / 128) h3]
      have h4 : n % 128 + 128 - 128 + 128 * (n / 128) = n := by omega
      rw [h4]

theorem decInt32_encInt32 (i : Int) (h1 : -(2 ^ 31) ≤ i) (h2 : i < 2 ^ 31) :
    decInt32 (i % (2 ^ 64 : Int)).toNat = i := by
  unfold decInt32
  split <;> omega

end Kv

namespace Kv

theorem parseResponse_nil (fuel : Nat) (m : PbResponse) :
    parseResponseLoop fuel [] m = some m := by
  cases fuel <;> simp [parseResponseLoop]

theorem parseResponse_step_code (c : Nat) (fuel : Nat) (rest : List Nat) (m : PbResponse) :
    parseResponseLoop (fuel + 1) (encVarint 8 ++ (encVarint c ++ rest)) m =
      parseResponseLoop fuel rest { m with code := decInt32 c } := by
  rw [encVarint_small 8 (by omega)]
  simp [parseResponseLoop, decVarint, decVarint_encVarint]

theorem parseResponse_step_key (k : List Nat) (fuel : Nat) (rest : List Nat) (m : PbResponse) :
    parseResponseLoop (fuel + 1) (encVarint 18 ++ (encVarint k.length ++ (k ++ rest))) m =
      parseResponseLoop fuel rest { m with key := k } := by
  rw [encVarint_small 18 (by omega)]
  simp [parseResponseLoop, decVarint, decVarint_encVarint, List.take_left, List.drop_left]

theorem parseResponse_step_value (v : List Nat) (fuel : Nat) (rest : List Nat) (m : PbResponse) :
    parseResponseLoop (fuel + 1) (encVarint 26 ++ (encVarint v.length ++ (v ++ rest))) m =
      parseResponseLoop fuel rest { m with value := v } := by
  rw [encVarint_small 26 (by omega)]
  simp [parseResponseLoop, decVarint, decVarint_encVarint, List.take_left, List.drop_left]

theorem parseResponse_code_end (c : Nat) (fuel : Nat) (m : PbResponse) :
    parseResponseLoop (fuel + 1) (encVarint 8 ++ encVarint c) m =
      some { m with code := decInt32 c } := by
  have h := parseResponse_step_code c fuel [] m
  rw [List.append_nil] at h
  rw [h, parseResponse_nil]

theorem parseResponse_key_end (k : List Nat) (fuel : Nat) (m : PbResponse) :
    parseResponseLoop (fuel + 1) (encVarint 18 ++ (encVarint k.length ++ k)) m =
      some { m with key := k } := by
  have h := parseResponse_step_key k fuel [] m
  rw [List.append_nil] at h
  rw [h, parseResponse_nil]

theorem parseResponse_value_end (v : List Nat) (fuel : Nat) (m : PbResponse) :
    parseResponseLoop (fuel + 1) (encVarint 26 ++ (encVarint v.length ++ v)) m =
      some { m with value := v } := by
  have h := parseResponse_step_value v fuel [] m
  rw [List.append_nil] at h
  rw [h, parseResponse_nil]

end Kv

namespace Kv

theorem encIntField_two_le (f : Nat) (i : Int) : 2 ≤ (encIntField f i).length := by
  have a := encVarint_length_pos (f * 8)
  have b := encVarint_length_pos (i % (2 ^ 64 : Int)).toNat
  simp only [encIntField, encInt32, List.length_append]
  omega

theorem encLenField_two_le (f : Nat) (p : List Nat) : 2 ≤ (encLenField f p).length := by
  have a := encVarint_length_pos (f * 8 + 2)
  have b := encVarint_length_pos p.length
  simp only [encLenField, List.length_append]
  omega

theorem decode_encode_response (m : PbResponse) (h1 : -(2 ^ 31) ≤ m.code)
    (h2 : m.code < 2 ^ 31) : decodeResponse (encodeResponse m) = some m := by
  obtain ⟨c, k, v⟩ := m
  unfold decodeResponse
  by_cases hc : c = 0 <;> by_cases hk : k = [] <;> by_cases hv : v = []
  · subst hc; subst hk; subst hv
    simp [encodeResponse, parseResponse_nil]
  · subst hc; subst hk
    obtain ⟨f, hf⟩ : ∃ f, (encodeResponse ⟨0, [], v⟩).length = f + 1 :=
      ⟨(encodeResponse ⟨0, [], v⟩).length - 1, by
        have q := encLenField_two_le 3 v
        simp only [encodeResponse, if_neg hv, List.length_append]
        omega⟩
    rw [hf]
    simp only [encodeResponse, if_neg hv, if_true, encLenField, List.append_assoc,
      List.nil_append, List.append_nil, Nat.reduceMul, Nat.reduceAdd]
    rw [parseResponse_value_end]
  · subst hc; subst hv
    obtain ⟨f, hf⟩ : ∃ f, (encodeResponse ⟨0, k, []⟩).length = f + 1 :=
      ⟨(encodeResponse ⟨0, k, []⟩).length - 1, by
        have q := encLenField_two_le 2 k
        simp only [encodeResponse, if_neg hk, List.length_append]
        omega⟩
    rw [hf]
    simp only [encodeResponse, if_neg hk, if_true, encLenField, List.append_assoc,
      List.nil_append, List.append_nil, Nat.reduceMul, Nat.reduceAdd]
    rw [parseResponse_key_end]
  · subst hc
    obtain ⟨f, hf⟩ : ∃ f, (encodeResponse ⟨0, k, v⟩).length = f + 2 :=
      ⟨(encodeResponse ⟨0, k, v⟩).length - 2, by
        have q1 := encLenField_two_le 2 k
        have q2 := encLenField_two_le 3 v
        simp only [encodeResponse, if_neg hk, if_neg hv, List.length_append]
        omega⟩
    rw [hf]
    simp only [encodeResponse, if_neg hk, if_neg hv, if_true, encLenField,
      List.append_assoc, List.nil_append, List.append_nil, Nat.reduceMul,
      Nat.reduceAdd]
    rw [show f + 2 = f + 1 + 1 by omega, parseResponse_step_key,
      parseResponse_value_end]
  · subst hk; subst hv
    obtain ⟨f, hf⟩ : ∃ f, (encodeResponse ⟨c, [], []⟩).length = f + 1 :=
      ⟨(encodeResponse ⟨c, [], []⟩).length - 1, by
        have q := encIntField_two_le 1 c
        simp only [encodeResponse, if_neg hc, List.length_append]
        omega⟩
    rw [hf]
    simp only [encodeResponse, if_neg hc, if_true, encIntField, encInt32,
      List.append_assoc, List.nil_append, List.append_nil, Nat.reduceMul,
      Nat.reduceAdd]
    rw [parseResponse_code_end, decInt32_encInt32 c h1 h2]
  · subst hk
    obtain ⟨f, hf⟩ : ∃ f, (encodeResponse ⟨c, [], v⟩).length = f + 2 :=
      ⟨(encodeResponse ⟨c, [], v⟩).length - 2, by
        have q1 := encIntField_two_le 1 c
        have q2 := encLenField_two_le 3 v
        simp only [encodeResponse, if_neg hc, if_neg hv, List.length_append]
        omega⟩
    rw [hf]
    simp only [encodeResponse, if_neg hc, if_neg hv, if_true, encIntField,
      encInt32, encLenField, List.append_assoc, List.nil_append,
      List.append_nil, Nat.reduceMul, Nat.reduceAdd]
    rw [show f + 2 = f + 1 + 1 by omega, parseResponse_step_code,
      parseResponse_value_end, decInt32_encInt32 c h1 h2]
  · subst hv
    obtain ⟨f, hf⟩ : ∃ f, (encodeResponse ⟨c, k, []⟩).length = f + 2 :=
      ⟨(encodeResponse ⟨c, k, []⟩).length - 2, by
        have q1 := encIntField_two_le 1 c
        have q2 := encLenField_two_le 2 k
        simp only [encodeResponse, if_neg hc, if_neg hk, List.length_append]
        omega⟩
    rw [hf]
    simp only [encodeResponse, if_neg hc, if_neg hk, if_true, encIntField,
      encInt32, encLenField, List.append_assoc, List.nil_append,
      List.append_nil, Nat.reduceMul, Nat.reduceAdd]
    rw [show f + 2 = f + 1 + 1 by omega, parseResponse_step_code,
      parseResponse_key_end, decInt32_encInt32 c h1 h2]
  · obtain ⟨f, hf⟩ : ∃ f, (encodeResponse ⟨c, k, v⟩).length = f + 3 :=
      ⟨(encodeResponse ⟨c, k, v⟩).length - 3, by
        have q1 := encIntField_two_le 1 c
        have q2 := encLenField_two_le 2 k
        have q3 := encLenField_two_le 3 v
        simp only [encodeResponse, if_neg hc, if_neg hk, if_neg hv,
          List.length_append]
        omega⟩
    rw [hf]
    simp only [encodeResponse, if_neg hc, if_neg hk, if_neg hv, encIntField,
      encInt32, encLenField, List.append_assoc, List.nil_append,
      List.append_nil, Nat.reduceMul, Nat.reduceAdd]
    rw [show f + 3 = f + 2 + 1 by omega, parseResponse_step_code,
      show f + 2 = f + 1 + 1 by omega, parseResponse_step_key,
      parseResponse_value_end, decInt32_encInt32 c h1 h2]

end Kv

namespace Kv

theorem parseGet_nil (fuel : Nat) (acc : List Nat) :
    parseGetLoop fuel [] acc = some acc := by
  cases fuel <;> simp [parseGetLoop]

theorem parseGet_key_end (k : List Nat) (fuel : Nat) (acc : List Nat) :
    parseGetLoop (fuel + 1) (encVarint 10 ++ (encVarint k.length ++ k)) acc =
      some k := by
  rw [encVarint_small 10 (by omega)]
  simp [parseGetLoop, decVarint, decVarint_encVarint, List.take_length,
    List.drop_length, parseGet_nil]

theorem parseGet_enc (k : List Nat) :
    parseGetLoop (encodeRequestGet k).length (encodeRequestGet k) [] = some k := by
  by_cases hk : k = []
  · subst hk
    simp [encodeRequestGet, parseGet_nil]
  · obtain ⟨f, hf⟩ : ∃ f, (encodeRequestGet k).length = f + 1 :=
      ⟨(encodeRequestGet k).length - 1, by
        have q := encLenField_two_le 1 k
        simp only [encodeRequestGet, if_neg hk]
        omega⟩
    rw [hf]
    simp only [encodeRequestGet, if_neg hk, encLenField, List.append_assoc,
      Nat.reduceMul, Nat.reduceAdd]
    rw [parseGet_key_end]

theorem parseDel_nil (fuel : Nat) (acc : List Nat) :
    parseDelLoop fuel [] acc = some acc := by
  cases fuel <;> simp [parseDelLoop]

theorem parseDel_key_end (k : List Nat) (fuel : Nat) (acc : List Nat) :
    parseDelLoop (fuel + 1) (encVarint 10 ++ (encVarint k.length ++ k)) acc =
      some k := by
  rw [encVarint_small 10 (by omega)]
  simp [parseDelLoop, decVarint, decVarint_encVarint, List.take_length,
    List.drop_length, parseDel_nil]

theorem parseDel_enc (k : List Nat) :
    parseDelLoop (encodeRequestDel k).length (encodeRequestDel k) [] = some k := by
  by_cases hk : k = []
  · subst hk
    simp [encodeRequestDel, parseDel_nil]
  · obtain ⟨f, hf⟩ : ∃ f, (encodeRequestDel k).length = f + 1 :=
      ⟨(encodeRequestDel k).length - 1, by
        have q := encLenField_two_le 1 k
        simp only [encodeRequestDel, if_neg hk]
        omega⟩
    rw [hf]
    simp only [encodeRequestDel, if_neg hk, encLenField, List.append_assoc,
      Nat.reduceMul, Nat.reduceAdd]
    rw [parseDel_key_end]

theorem parsePut_nil (fuel : Nat) (ak av : List Nat) :
    parsePutLoop fuel [] ak av = some (ak, av) := by
  cases fuel <;> simp [parsePutLoop]

theorem parsePut_step_key (k : List Nat) (fuel : Nat) (rest : List Nat)
    (ak av : List Nat) :
    parsePutLoop (fuel + 1) (encVarint 10 ++ (encVarint k.length ++ (k ++ rest))) ak av =
      parsePutLoop fuel rest k av := by
  rw [encVarint_small 10 (by omega)]
  simp [parsePutLoop, decVarint, decVarint_encVarint, List.take_left,
    List.drop_left]

theorem parsePut_key_end (k : List Nat) (fuel : Nat) (ak av : List Nat) :
    parsePutLoop (fuel + 1) (encVarint 10 ++ (encVarint k.length ++ k)) ak av =
      some (k, av) := by
  have h := parsePut_step_key k fuel [] ak av
  rw [List.append_nil] at h
  rw [h, parsePut_nil]

theorem parsePut_value_end (v : List Nat) (fuel : Nat) (ak av : List Nat) :
    parsePutLoop (fuel + 1) (encVarint 18 ++ (encVarint v.length ++ v)) ak av =
      some (ak, v) := by
  rw [encVarint_small 18 (by omega)]
  simp [parsePutLoop, decVarint, decVarint_encVarint, List.take_length,
    List.drop_length, parsePut_nil]

theorem parsePut_enc (k v : List Nat) :
    parsePutLoop (encodeRequestPut k v).length (encodeRequestPut k v) [] [] =
      some (k, v) := by
  by_cases hk : k = [] <;> by_cases hv : v = []
  · subst hk; subst hv
    simp [encodeRequestPut, parsePut_nil]
  · subst hk
    obtain ⟨f, hf⟩ : ∃ f, (encodeRequestPut [] v).length = f + 1 :=
      ⟨(encodeRequestPut [] v).length - 1, by
        have q := encLenField_two_le 2 v
        simp only [encodeRequestPut, if_neg hv, List.length_append]
        omega⟩
    rw [hf]
    simp only [encodeRequestPut, if_neg hv, if_true, encLenField,
      List.append_assoc, List.nil_append, List.append_nil, Nat.reduceMul,
      Nat.reduceAdd]
    rw [parsePut_value_end]
  · subst hv
    obtain ⟨f, hf⟩ : ∃ f, (encodeRequestPut k []).length = f + 1 :=
      ⟨(encodeRequestPut k []).length - 1, by
        have q := encLenField_two_le 1 k
        simp only [encodeRequestPut, if_neg hk, List.length_append]
        omega⟩
    rw [hf]
    simp only [encodeRequestPut, if_neg hk, if_true, encLenField,
      List.append_assoc, List.nil_append, List.append_nil, Nat.reduceMul,
      Nat.reduceAdd]
    rw [parsePut_key_end]
  · obtain ⟨f, hf⟩ : ∃ f, (encodeRequestPut k v).length = f + 2 :=
      ⟨(encodeRequestPut k v).length - 2, by
        have q1 := encLenField_two_le 1 k
        have q2 := encLenField_two_le 2 v
        simp only [encodeRequestPut, if_neg hk, if_neg hv, List.length_append]
        omega⟩
    rw [hf]
    simp only [encodeRequestPut, if_neg hk, if_neg hv, encLenField,
      List.append_assoc, List.nil_append, List.append_nil, Nat.reduceMul,
      Nat.reduceAdd]
    rw [show f + 2 = f + 1 + 1 by omega, parsePut_step_key, parsePut_value_end]

end Kv

namespace Kv

theorem parseRequest_nil (fuel : Nat) (cmd : Option PbCommand) :
    parseRequestLoop fuel [] cmd = some ⟨cmd⟩ := by
  cases fuel <;> simp [parseRequestLoop]

theorem parseRequest_get (k : List Nat) (fuel : Nat) (cmd : Option PbCommand) :
    parseRequestLoop (fuel + 1)
      (encVarint 10 ++ (encVarint (encodeRequestGet k).length ++ encodeRequestGet k))
      cmd = some ⟨some (PbCommand.get k)⟩ := by
  rw [encVarint_small 10 (by omega)]
  simp [parseRequestLoop, decVarint, decVarint_encVarint, List.take_length,
    List.drop_length, parseGet_enc, parseRequest_nil]

theorem parseRequest_put (k v : List Nat) (fuel : Nat) (cmd : Option PbCommand) :
    parseRequestLoop (fuel + 1)
      (encVarint 18 ++
        (encVarint (encodeRequestPut k v).length ++ encodeRequestPut k v))
      cmd = some ⟨some (PbCommand.put k v)⟩ := by
  rw [encVarint_small 18 (by omega)]
  simp [parseRequestLoop, decVarint, decVarint_encVarint, List.take_length,
    List.drop_length, parsePut_enc, parseRequest_nil]

theorem parseRequest_del (k : List Nat) (fuel : Nat) (cmd : Option PbCommand) :
    parseRequestLoop (fuel + 1)
      (encVarint 26 ++ (encVarint (encodeRequestDel k).length ++ encodeRequestDel k))
      cmd = some ⟨some (PbCommand.del k)⟩ := by
  rw [encVarint_small 26 (by omega)]
  simp [parseRequestLoop, decVarint, decVarint_encVarint, List.take_length,
    List.drop_length, parseDel_enc, parseRequest_nil]

theorem decode_encode_request (r : PbRequest) :
    decodeRequest (encodeRequest r) = some r := by
  obtain ⟨cmd⟩ := r
  unfold decodeRequest
  cases cmd with
  | none => simp [encodeRequest, parseRequest_nil]
  | some c =>
    cases c with
    | get k =>
      obtain ⟨f, hf⟩ : ∃ f, (encodeRequest ⟨some (PbCommand.get k)⟩).length = f + 1 :=
        ⟨(encodeRequest ⟨some (PbCommand.get k)⟩).length - 1, by
          have q := encLenField_two_le 1 (encodeRequestGet k)
          simp only [encodeRequest]
          omega⟩
      rw [hf]
      simp only [encodeRequest, encLenField, List.append_assoc, Nat.reduceMul,
        Nat.reduceAdd]
      rw [parseRequest_get]
    | put k v =>
      obtain ⟨f, hf⟩ : ∃ f, (encodeRequest ⟨some (PbCommand.put k v)⟩).length = f + 1 :=
        ⟨(encodeRequest ⟨some (PbCommand.put k v)⟩).length - 1, by
          have q := encLenField_two_le 2 (encodeRequestPut k v)
          simp only [encodeRequest]
          omega⟩
      rw [hf]
      simp only [encodeRequest, encLenField, List.append_assoc, Nat.reduceMul,
        Nat.reduceAdd]
      rw [parseRequest_put]
    | del k =>
      obtain ⟨f, hf⟩ : ∃ f, (encodeRequest ⟨some (PbCommand.del k)⟩).length = f + 1 :=
        ⟨(encodeRequest ⟨some (PbCommand.del k)⟩).length - 1, by
          have q := encLenField_two_le 3 (encodeRequestDel k)
          simp only [encodeRequest]
          omega⟩
      rw [hf]
      simp only [encodeRequest, encLenField, List.append_assoc, Nat.reduceMul,
        Nat.reduceAdd]
      rw [parseRequest_del]

/-- CLAIM C4: message decoding inverts message encoding: every Request
round-trips, and every Response whose code is a well-formed i32 (the type
of the code field in the source) round-trips; encoding is total by
construction (encodeRequest and encodeResponse are functions into byte
lists and cannot fail). -/
theorem message_roundtrip :
    (∀ r : PbRequest, decodeRequest (encodeRequest r) = some r) ∧
    (∀ m : PbResponse, -(2 ^ 31) ≤ m.code → m.code < 2 ^ 31 →
      decodeResponse (encodeResponse m) = some m) :=
  ⟨decode_encode_request, fun m h1 h2 => decode_encode_response m h1 h2⟩

/-- Witness for C4: a concrete Put request and a concrete 404 response
round-trip through the wire encoding. -/
theorem message_roundtrip_witness :
    decodeRequest (encodeRequest ⟨some (PbCommand.put [104] [5, 0])⟩) =
      some ⟨some (PbCommand.put [104] [5, 0])⟩ ∧
    -(2 ^ 31) ≤ (404 : Int) ∧ (404 : Int) < 2 ^ 31 ∧
    decodeResponse (encodeResponse ⟨404, [104], []⟩) = some ⟨404, [104], []⟩ :=
  ⟨message_roundtrip.1 ⟨some (PbCommand.put [104] [5, 0])⟩, by decide, by decide,
   message_roundtrip.2 ⟨404, [104], []⟩ (by decide) (by decide)⟩

end Kv
